import Mathlib

/-!
# Verification of the timewave-visual chart interaction and data-transform engine

A shallow embedding of the core logic of the `TimeSeriesChart` component and
its utility modules (`data-utils.ts`, `time-utils.ts`): series alignment,
Y-axis domain calculation, interaction-mode control, brush selection handling,
the refresh scheduler, time-range resolution, CSV export and value formatting.

Timestamps are epoch milliseconds modelled as `ℤ`; JavaScript numbers are
modelled as exact rationals `ℚ` (the concrete inputs exercised below are all
exactly representable as IEEE doubles, so the JS computations on them agree
with exact rational arithmetic).
-/

namespace Timewave

/-- `DataPoint` of `data-utils.ts`: a timestamped sample. The `anomaly` /
`annotation` decorations are never read by the logic verified here and are
omitted. `timestamp` is `Date.getTime()` in epoch milliseconds. -/
structure DataPoint where
  timestamp : ℤ
  value : ℚ
  deriving Repr, DecidableEq

/-- `TimeSeriesData` of `data-utils.ts`. `visible?: boolean` is a tri-state
field in TypeScript (`undefined`, `true`, `false`), modelled as `Option Bool`;
the code treats a series as visible unless `visible === false`. -/
structure TimeSeriesData where
  id : String
  name : String
  color : String
  data : List DataPoint
  visible : Option Bool
  deriving Repr, DecidableEq

/-- The visibility test used throughout the component: `s.visible !== false`. -/
def seriesShown (s : TimeSeriesData) : Bool :=
  s.visible != some false

/-- One aligned chart row: the source builds objects
`{ timestamp, [seriesId]: value, ... }`; the dynamic series-id keys are
modelled as an association list in JS-object insertion order. -/
structure ChartRow where
  timestamp : ℤ
  values : List (String × ℚ)
  deriving Repr, DecidableEq

/-- JS object property assignment `entry[k] = v` on a string-keyed record:
overwrite the existing entry in place, else append. -/
def objSet : List (String × ℚ) → String → ℚ → List (String × ℚ)
  | [], k, v => [(k, v)]
  | (k', v') :: rest, k, v =>
    if k' = k then (k, v) :: rest else (k', v') :: objSet rest k v

/-- JS object property read `r[k]`, `none` standing for `undefined`. -/
def objGet : List (String × ℚ) → String → Option ℚ
  | [], _ => none
  | (k', v') :: rest, k => if k' = k then some v' else objGet rest k

/-- One step of the alignment `useEffect` body: for a point of the series with
id `sid`, upsert the row at the point's exact timestamp
(`timestampMap.set` on a missing key, then `entry[s.id] = point.value`).
The map keys stay pairwise distinct by construction, so updating every row
with the matching timestamp coincides with updating the (unique) stored one. -/
def upsertPoint (sid : String) (m : List ChartRow) (p : DataPoint) : List ChartRow :=
  if m.any (fun r => r.timestamp = p.timestamp) then
    m.map (fun r =>
      if r.timestamp = p.timestamp then
        { r with values := objSet r.values sid p.value }
      else r)
  else
    m ++ [⟨p.timestamp, objSet [] sid p.value⟩]

/-- Processing one visible series: `s.data.forEach(point => ...)`. -/
def processSeries (m : List ChartRow) (s : TimeSeriesData) : List ChartRow :=
  s.data.foldl (upsertPoint s.id) m

/-- The row comparison used by `.sort((a, b) => a.timestamp - b.timestamp)`. -/
def rowLE (a b : ChartRow) : Prop := a.timestamp ≤ b.timestamp

instance : DecidableRel rowLE := fun a b => inferInstanceAs (Decidable (a.timestamp ≤ b.timestamp))

instance : IsTotal ChartRow rowLE := ⟨fun a b => Int.le_total a.timestamp b.timestamp⟩

instance : IsTrans ChartRow rowLE := ⟨fun _ _ _ h h' => le_trans h h'⟩

/-- The alignment `useEffect` of `TimeSeriesChart`: filter the visible series,
fold every point of every visible series into the timestamp-keyed map, then
sort the collected rows ascending by timestamp. The map keys are pairwise
distinct, so the JS comparator sort has a unique result, realised here by
insertion sort. -/
def buildChartData (series : List TimeSeriesData) : List ChartRow :=
  let visibleSeries := series.filter seriesShown
  List.insertionSort rowLE (visibleSeries.foldl processSeries [])

/-- The complete effect, including the `series.length > 0` guard (an empty
store resets `chartData` to `[]`). -/
def computeChartData (series : List TimeSeriesData) : List ChartRow :=
  if series.isEmpty then [] else buildChartData series

/-! ## Lemmas about the alignment engine -/

/-- The timestamp keys of the timestamp map, in insertion order. -/
def rowsKeys (m : List ChartRow) : List ℤ := m.map ChartRow.timestamp

/-- Lookup of `timestampMap.get(t)?.[id]`: the value stored for series `id`
in the row keyed by `t`. -/
def getVal (m : List ChartRow) (t : ℤ) (id : String) : Option ℚ :=
  (m.find? (fun r => r.timestamp = t)).bind (fun r => objGet r.values id)

/-- The value the alignment loop leaves for one series at timestamp `t`:
the last point with that timestamp wins (later writes overwrite). -/
def lastVal : List DataPoint → ℤ → Option ℚ
  | [], _ => none
  | p :: ps, t => (lastVal ps t).or (if p.timestamp = t then some p.value else none)

/-- The value the alignment loop leaves for series id `id` at timestamp `t`
after processing a series list: later series with the same id overwrite. -/
def seriesVal : List TimeSeriesData → ℤ → String → Option ℚ
  | [], _, _ => none
  | s :: l, t, id =>
    (seriesVal l t id).or (if s.id = id then lastVal s.data t else none)

theorem objGet_objSet_same (r : List (String × ℚ)) (k : String) (v : ℚ) :
    objGet (objSet r k v) k = some v := by
  induction r with
  | nil => simp [objSet, objGet]
  | cons hd tl ih =>
    obtain ⟨k', v'⟩ := hd
    by_cases h : k' = k <;> simp [objSet, objGet, h, ih]

theorem objGet_objSet_ne (r : List (String × ℚ)) (k k' : String) (v : ℚ)
    (h : k' ≠ k) : objGet (objSet r k v) k' = objGet r k' := by
  induction r with
  | nil => simp [objSet, objGet, Ne.symm h]
  | cons hd tl ih =>
    obtain ⟨k₀, v₀⟩ := hd
    by_cases h0 : k₀ = k
    · subst h0; simp [objSet, objGet, h, Ne.symm h]
    · by_cases h1 : k₀ = k' <;> simp [objSet, objGet, h0, h1, ih, h]

/-- Any `find?` by timestamp commutes with a map that preserves timestamps. -/
theorem find?_ts_map (f : ChartRow → ChartRow)
    (hf : ∀ r, (f r).timestamp = r.timestamp) (m : List ChartRow) (t : ℤ) :
    List.find? (fun r => r.timestamp = t) (m.map f) =
      Option.map f (List.find? (fun r => r.timestamp = t) m) := by
  induction m with
  | nil => simp
  | cons x tl ih =>
    by_cases h : x.timestamp = t
    · rw [List.map_cons, List.find?_cons_of_pos _ (by simp [hf, h]),
        List.find?_cons_of_pos _ (by simp [h])]
      simp
    · rw [List.map_cons, List.find?_cons_of_neg _ (by simp [hf, h]),
        List.find?_cons_of_neg _ (by simp [h])]
      exact ih

theorem any_timestamp_iff (m : List ChartRow) (t : ℤ) :
    (m.any fun r => r.timestamp = t) = true ↔ t ∈ rowsKeys m := by
  simp [List.any_eq_true, rowsKeys, List.mem_map]

theorem getVal_upsertPoint (sid : String) (m : List ChartRow) (p : DataPoint)
    (t : ℤ) (id : String) :
    getVal (upsertPoint sid m p) t id =
      if t = p.timestamp ∧ id = sid then some p.value else getVal m t id := by
  classical
  unfold upsertPoint
  by_cases hmem : (m.any fun r => r.timestamp = p.timestamp) = true
  · -- update-in-place branch
    rw [if_pos hmem]
    rw [getVal, find?_ts_map _ (fun r => by by_cases h : r.timestamp = p.timestamp <;> simp [h])]
    rcases hr0 : List.find? (fun r : ChartRow => r.timestamp = t) m with _ | r0
    · -- nothing stored at t
      by_cases hc : t = p.timestamp ∧ id = sid
      · -- impossible: t = p.timestamp is a stored key
        exfalso
        have hkey := (any_timestamp_iff m p.timestamp).mp hmem
        rw [rowsKeys, List.mem_map] at hkey
        obtain ⟨r2, hr2, hts2⟩ := hkey
        rw [List.find?_eq_none] at hr0
        exact hr0 r2 hr2 (by simp [hts2, hc.1])
      · simp [getVal, hr0, hc]
    · have hrt : r0.timestamp = t := by
        have := List.find?_some hr0
        simpa using this
      by_cases hc : t = p.timestamp ∧ id = sid
      · obtain ⟨hc1, hc2⟩ := hc
        simp [hc1, hc2, hrt, objGet_objSet_same]
      · rw [if_neg hc, getVal, hr0]
        by_cases ht : t = p.timestamp
        · have hid : id ≠ sid := fun h => hc ⟨ht, h⟩
          simp [hrt, ht, objGet_objSet_ne _ _ _ _ hid]
        · have : ¬ r0.timestamp = p.timestamp := by rw [hrt]; exact ht
          simp [this]
  · -- append branch: the key was absent
    rw [if_neg hmem]
    have habs : ∀ r ∈ m, ¬ r.timestamp = p.timestamp := by
      intro r hr hts
      exact hmem (List.any_eq_true.mpr ⟨r, hr, by simp [hts]⟩)
    rw [getVal, List.find?_append]
    by_cases ht : t = p.timestamp
    · subst ht
      have h1 : List.find? (fun r : ChartRow => r.timestamp = p.timestamp) m = none := by
        rw [List.find?_eq_none]
        intro r hr
        simpa using habs r hr
      by_cases hid : id = sid
      · simp [h1, hid, objGet_objSet_same]
      · have h2 : getVal m p.timestamp id = none := by simp [getVal, h1]
        simp [h1, h2, hid, objGet, objSet, Ne.symm hid]
    · have h2 : List.find? (fun r : ChartRow => r.timestamp = t)
          [(⟨p.timestamp, objSet [] sid p.value⟩ : ChartRow)] = none := by
        rw [List.find?_eq_none]
        intro r hr
        rw [List.mem_singleton] at hr
        subst hr
        simp only [decide_eq_true_eq]
        exact fun h => ht h.symm
      simp [getVal, h2, ht, Option.or_none]

theorem getVal_nil (t : ℤ) (id : String) : getVal [] t id = none := rfl

theorem getVal_foldPoints (sid : String) (ps : List DataPoint)
    (m : List ChartRow) (t : ℤ) (id : String) :
    getVal (ps.foldl (upsertPoint sid) m) t id =
      if id = sid then (lastVal ps t).or (getVal m t id) else getVal m t id := by
  induction ps generalizing m with
  | nil => simp [lastVal]
  | cons p tl ih =>
    rw [List.foldl_cons, ih, getVal_upsertPoint]
    by_cases hid : id = sid
    · subst hid
      by_cases ht : t = p.timestamp
      · subst ht
        simp [lastVal, Option.or_assoc]
      · have hne : ¬ p.timestamp = t := fun h => ht h.symm
        simp [lastVal, ht, hne, Option.or_assoc]
    · simp [hid]

theorem getVal_foldSeries (l : List TimeSeriesData) (m : List ChartRow)
    (t : ℤ) (id : String) :
    getVal (l.foldl processSeries m) t id =
      (seriesVal l t id).or (getVal m t id) := by
  induction l generalizing m with
  | nil => simp [seriesVal]
  | cons s tl ih =>
    rw [List.foldl_cons, ih, processSeries, getVal_foldPoints, seriesVal]
    by_cases hid : s.id = id
    · subst hid
      simp [Option.or_assoc]
    · have : ¬ id = s.id := fun h => hid h.symm
      simp [hid, this]

/-! ### Keys of the timestamp map -/

theorem rowsKeys_upsertPoint (sid : String) (m : List ChartRow) (p : DataPoint) :
    rowsKeys (upsertPoint sid m p) =
      if p.timestamp ∈ rowsKeys m then rowsKeys m
      else rowsKeys m ++ [p.timestamp] := by
  unfold upsertPoint
  by_cases hmem : (m.any fun r => r.timestamp = p.timestamp) = true
  · rw [if_pos hmem, if_pos ((any_timestamp_iff m p.timestamp).mp hmem)]
    unfold rowsKeys
    rw [List.map_map]
    apply List.map_congr_left
    intro r _
    by_cases h : r.timestamp = p.timestamp <;> simp [h]
  · have : ¬ p.timestamp ∈ rowsKeys m := fun h =>
      hmem ((any_timestamp_iff m p.timestamp).mpr h)
    rw [if_neg hmem, if_neg this]
    simp [rowsKeys]

theorem mem_rowsKeys_foldPoints (sid : String) (ps : List DataPoint)
    (m : List ChartRow) (t : ℤ) :
    t ∈ rowsKeys (ps.foldl (upsertPoint sid) m) ↔
      t ∈ rowsKeys m ∨ ∃ p ∈ ps, p.timestamp = t := by
  induction ps generalizing m with
  | nil => simp
  | cons p tl ih =>
    rw [List.foldl_cons, ih, rowsKeys_upsertPoint]
    by_cases hmem : p.timestamp ∈ rowsKeys m
    · rw [if_pos hmem]
      simp only [List.mem_cons]
      constructor
      · rintro (h | ⟨q, hq, hqt⟩)
        · exact Or.inl h
        · exact Or.inr ⟨q, Or.inr hq, hqt⟩
      · rintro (h | ⟨q, rfl | hq', hqt⟩)
        · exact Or.inl h
        · exact Or.inl (hqt ▸ hmem)
        · exact Or.inr ⟨q, hq', hqt⟩
    · rw [if_neg hmem]
      simp only [List.mem_append, List.mem_singleton, List.mem_cons]
      constructor
      · rintro ((h | rfl | hfalse) | ⟨q, hq, hqt⟩)
        · exact Or.inl h
        · exact Or.inr ⟨p, Or.inl rfl, rfl⟩
        · cases hfalse
        · exact Or.inr ⟨q, Or.inr hq, hqt⟩
      · rintro (h | ⟨q, rfl | hq', hqt⟩)
        · exact Or.inl (Or.inl h)
        · exact Or.inl (Or.inr (Or.inl hqt.symm))
        · exact Or.inr ⟨q, hq', hqt⟩

theorem nodup_rowsKeys_foldPoints (sid : String) (ps : List DataPoint)
    (m : List ChartRow) (h : (rowsKeys m).Nodup) :
    (rowsKeys (ps.foldl (upsertPoint sid) m)).Nodup := by
  induction ps generalizing m with
  | nil => exact h
  | cons p tl ih =>
    rw [List.foldl_cons]
    apply ih
    rw [rowsKeys_upsertPoint]
    by_cases hmem : p.timestamp ∈ rowsKeys m
    · rwa [if_pos hmem]
    · rw [if_neg hmem]
      simp [List.nodup_append, h, hmem]

theorem mem_rowsKeys_foldSeries (l : List TimeSeriesData) (m : List ChartRow)
    (t : ℤ) :
    t ∈ rowsKeys (l.foldl processSeries m) ↔
      t ∈ rowsKeys m ∨ ∃ s ∈ l, ∃ p ∈ s.data, p.timestamp = t := by
  induction l generalizing m with
  | nil => simp
  | cons s tl ih =>
    rw [List.foldl_cons, ih, processSeries, mem_rowsKeys_foldPoints]
    constructor
    · rintro ((h | hp) | ⟨s', hs', hp⟩)
      · exact Or.inl h
      · exact Or.inr ⟨s, List.mem_cons_self _ _, hp⟩
      · exact Or.inr ⟨s', List.mem_cons_of_mem _ hs', hp⟩
    · rintro (h | ⟨s', hs', hp⟩)
      · exact Or.inl (Or.inl h)
      · rcases List.mem_cons.mp hs' with rfl | hs''
        · exact Or.inl (Or.inr hp)
        · exact Or.inr ⟨s', hs'', hp⟩

theorem nodup_rowsKeys_foldSeries (l : List TimeSeriesData) (m : List ChartRow)
    (h : (rowsKeys m).Nodup) : (rowsKeys (l.foldl processSeries m)).Nodup := by
  induction l generalizing m with
  | nil => exact h
  | cons s tl ih => exact ih _ (nodup_rowsKeys_foldPoints _ _ _ h)

/-- With pairwise-distinct keys, `find?` by a member row's timestamp returns
exactly that row. -/
theorem find?_eq_of_mem_of_nodup (m : List ChartRow) (r : ChartRow)
    (hnd : (rowsKeys m).Nodup) (hr : r ∈ m) :
    m.find? (fun x => x.timestamp = r.timestamp) = some r := by
  induction m with
  | nil => cases hr
  | cons x tl ih =>
    rcases List.mem_cons.mp hr with rfl | hr'
    · rw [List.find?_cons_of_pos _ (by simp)]
    · have hx : ¬ x.timestamp = r.timestamp := by
        intro hts
        have : r.timestamp ∈ rowsKeys tl :=
          List.mem_map.mpr ⟨r, hr', rfl⟩
        rw [rowsKeys, List.map_cons] at hnd
        exact (List.nodup_cons.mp hnd).1 (hts ▸ this)
      rw [List.find?_cons_of_neg _ (by simp [hx])]
      exact ih (by rw [rowsKeys, List.map_cons] at hnd; exact (List.nodup_cons.mp hnd).2) hr'

/-! ### Characterizing `lastVal` and `seriesVal` -/

theorem or_some_left {α : Type} (a : α) (o : Option α) :
    (some a).or o = some a := rfl

theorem lastVal_eq_none_iff (ps : List DataPoint) (t : ℤ) :
    lastVal ps t = none ↔ ∀ p ∈ ps, p.timestamp ≠ t := by
  induction ps with
  | nil => simp [lastVal]
  | cons p tl ih =>
    rw [lastVal, Option.or_eq_none, ih]
    by_cases h : p.timestamp = t <;> simp [h]

/-- With points strictly sorted by timestamp (the `DataPoint` construction
invariant), at most one point sits at each timestamp and the stored value is
exactly that point's value. -/
theorem lastVal_eq_some_iff (ps : List DataPoint) (t : ℤ) (v : ℚ)
    (hs : ps.Pairwise (fun p q => p.timestamp < q.timestamp)) :
    lastVal ps t = some v ↔ ∃ p ∈ ps, p.timestamp = t ∧ p.value = v := by
  induction ps generalizing v with
  | nil => simp [lastVal]
  | cons p tl ih =>
    obtain ⟨hhead, hs'⟩ := List.pairwise_cons.mp hs
    rw [lastVal]
    rcases htl : lastVal tl t with _ | w
    · have hnone := (lastVal_eq_none_iff tl t).mp htl
      rw [Option.none_or]
      by_cases ht : p.timestamp = t
      · rw [if_pos ht]
        constructor
        · intro h
          exact ⟨p, List.mem_cons_self _ _, ht, Option.some.inj h⟩
        · rintro ⟨q, hq, hqt, hqv⟩
          rcases List.mem_cons.mp hq with rfl | hq'
          · exact congrArg some hqv
          · exact absurd hqt (hnone q hq')
      · rw [if_neg ht]
        constructor
        · intro h; cases h
        · rintro ⟨q, hq, hqt, hqv⟩
          rcases List.mem_cons.mp hq with rfl | hq'
          · exact absurd hqt ht
          · exact absurd hqt (hnone q hq')
    · rw [or_some_left]
      obtain ⟨q0, hq0, hq0t, hq0v⟩ := (ih w hs').mp htl
      constructor
      · intro h
        obtain rfl := Option.some.inj h
        exact ⟨q0, List.mem_cons_of_mem _ hq0, hq0t, hq0v⟩
      · rintro ⟨q, hq, hqt, hqv⟩
        rcases List.mem_cons.mp hq with rfl | hq'
        · exact absurd (hqt ▸ hhead q0 hq0) (by simp [hq0t])
        · rw [← htl, (ih v hs').mpr ⟨q, hq', hqt, hqv⟩]

theorem seriesVal_eq_none_iff (l : List TimeSeriesData) (t : ℤ) (id : String) :
    seriesVal l t id = none ↔ ∀ s ∈ l, s.id = id → lastVal s.data t = none := by
  induction l with
  | nil => simp [seriesVal]
  | cons s tl ih =>
    rw [seriesVal, Option.or_eq_none, ih]
    by_cases h : s.id = id <;> simp [h, and_comm]

/-- With pairwise-distinct series ids (the Series Store identity invariant)
and sorted points, the aligned value of series `id` at timestamp `t` is
exactly the value of that series' point there. -/
theorem seriesVal_eq_some_iff (l : List TimeSeriesData) (t : ℤ) (id : String)
    (v : ℚ) (hids : (l.map TimeSeriesData.id).Nodup)
    (hsort : ∀ s ∈ l, s.data.Pairwise (fun p q => p.timestamp < q.timestamp)) :
    seriesVal l t id = some v ↔
      ∃ s ∈ l, s.id = id ∧ ∃ p ∈ s.data, p.timestamp = t ∧ p.value = v := by
  induction l generalizing v with
  | nil => simp [seriesVal]
  | cons s tl ih =>
    rw [List.map_cons, List.nodup_cons] at hids
    obtain ⟨hhead, hids'⟩ := hids
    have hsort' : ∀ s' ∈ tl, s'.data.Pairwise (fun p q => p.timestamp < q.timestamp) :=
      fun s' hs' => hsort s' (List.mem_cons_of_mem _ hs')
    rw [seriesVal]
    rcases htl : seriesVal tl t id with _ | w
    · have hnone := (seriesVal_eq_none_iff tl t id).mp htl
      rw [Option.none_or]
      by_cases hsid : s.id = id
      · rw [if_pos hsid,
          lastVal_eq_some_iff _ _ _ (hsort s (List.mem_cons_self _ _))]
        constructor
        · rintro ⟨p, hp, hpt, hpv⟩
          exact ⟨s, List.mem_cons_self _ _, hsid, p, hp, hpt, hpv⟩
        · rintro ⟨s0, hs0, hs0id, p, hp, hpt, hpv⟩
          rcases List.mem_cons.mp hs0 with rfl | hs0'
          · exact ⟨p, hp, hpt, hpv⟩
          · exfalso
            apply hhead
            rw [List.mem_map]
            exact ⟨s0, hs0', by rw [hs0id, hsid]⟩
      · rw [if_neg hsid]
        constructor
        · intro h; cases h
        · rintro ⟨s0, hs0, hs0id, p, hp, hpt, hpv⟩
          rcases List.mem_cons.mp hs0 with rfl | hs0'
          · exact absurd hs0id hsid
          · exact absurd hpt
              ((lastVal_eq_none_iff s0.data t).mp (hnone s0 hs0' hs0id) p hp)
    · rw [or_some_left]
      obtain ⟨s0, hs0, hs0id, hex0⟩ := (ih w hids' hsort').mp htl
      constructor
      · intro h
        obtain rfl := Option.some.inj h
        exact ⟨s0, List.mem_cons_of_mem _ hs0, hs0id, hex0⟩
      · rintro ⟨s1, hs1, hs1id, p, hp, hpt, hpv⟩
        rcases List.mem_cons.mp hs1 with rfl | hs1'
        · exfalso
          apply hhead
          rw [List.mem_map]
          exact ⟨s0, hs0, by rw [hs0id, hs1id]⟩
        · rw [← htl, (ih v hids' hsort').mpr ⟨s1, hs1', hs1id, p, hp, hpt, hpv⟩]

/-! ## C1: correctness of the alignment step -/

/-- **C1**: For every list of series whose visible members have pairwise
distinct ids and strictly ascending point timestamps (the construction
invariants of the Series Store), the alignment step produces rows sorted
strictly ascending by timestamp, with exactly one row per distinct point
timestamp occurring in any visible series, and each row's value mapping
contains an entry for a series id exactly when that visible series has a
point at that exact timestamp, carrying that point's value. -/
theorem alignment_correct (ss : List TimeSeriesData)
    (hids : ((ss.filter seriesShown).map TimeSeriesData.id).Nodup)
    (hsort : ∀ s ∈ ss.filter seriesShown,
      s.data.Pairwise (fun p q => p.timestamp < q.timestamp)) :
    (computeChartData ss).Pairwise (fun a b => a.timestamp < b.timestamp) ∧
    (∀ t : ℤ, t ∈ (computeChartData ss).map ChartRow.timestamp ↔
      ∃ s ∈ ss.filter seriesShown, ∃ p ∈ s.data, p.timestamp = t) ∧
    ((computeChartData ss).map ChartRow.timestamp).Nodup ∧
    (∀ r ∈ computeChartData ss, ∀ id : String, ∀ v : ℚ,
      objGet r.values id = some v ↔
        ∃ s ∈ ss.filter seriesShown, s.id = id ∧
          ∃ p ∈ s.data, p.timestamp = r.timestamp ∧ p.value = v) := by
  by_cases hempty : ss.isEmpty
  · have h0 : computeChartData ss = [] := by simp [computeChartData, hempty]
    have hfil : ss.filter seriesShown = [] := by
      cases ss with
      | nil => rfl
      | cons a l => simp [List.isEmpty] at hempty
    simp [h0, hfil]
  · have hcd : computeChartData ss =
        List.insertionSort rowLE ((ss.filter seriesShown).foldl processSeries []) := by
      rw [computeChartData, if_neg hempty, buildChartData]
    set raw := (ss.filter seriesShown).foldl processSeries [] with hraw
    have hkeynd : (rowsKeys raw).Nodup :=
      nodup_rowsKeys_foldSeries _ _ (by simp [rowsKeys])
    have hperm := List.perm_insertionSort rowLE raw
    have hkeyperm :
        ((List.insertionSort rowLE raw).map ChartRow.timestamp).Perm
          (raw.map ChartRow.timestamp) := hperm.map _
    have hnd2 : ((List.insertionSort rowLE raw).map ChartRow.timestamp).Nodup :=
      hkeyperm.nodup_iff.mpr hkeynd
    refine ⟨?_, ?_, ?_, ?_⟩
    · rw [hcd]
      have hsorted : (List.insertionSort rowLE raw).Pairwise rowLE :=
        List.sorted_insertionSort rowLE raw
      have hne : (List.insertionSort rowLE raw).Pairwise
          (fun a b => a.timestamp ≠ b.timestamp) := List.pairwise_map.mp hnd2
      exact (hsorted.and hne).imp (fun h => lt_of_le_of_ne h.1 h.2)
    · intro t
      rw [hcd, hkeyperm.mem_iff]
      have := mem_rowsKeys_foldSeries (ss.filter seriesShown) [] t
      rw [← hraw] at this
      rw [show raw.map ChartRow.timestamp = rowsKeys raw from rfl, this]
      simp [rowsKeys]
    · rw [hcd]; exact hnd2
    · intro r hr id v
      rw [hcd] at hr
      have hr' : r ∈ raw := hperm.mem_iff.mp hr
      have hfind := find?_eq_of_mem_of_nodup raw r hkeynd hr'
      have h1 : objGet r.values id = getVal raw r.timestamp id := by
        rw [getVal, hfind]; rfl
      rw [h1, hraw, getVal_foldSeries, getVal_nil, Option.or_none]
      exact seriesVal_eq_some_iff _ _ _ _ hids hsort

/-- Witness for `alignment_correct`: two concrete visible series, one with
points at timestamps 0 and 10, the other with a single point at 0. -/
theorem alignment_correct_witness :
    ((([⟨"a", "A", "#111111", [⟨0, 1⟩, ⟨10, 2⟩], some true⟩,
        ⟨"b", "B", "#222222", [⟨0, 5⟩], some true⟩] :
          List TimeSeriesData).filter seriesShown).map TimeSeriesData.id).Nodup ∧
    (computeChartData
        [⟨"a", "A", "#111111", [⟨0, 1⟩, ⟨10, 2⟩], some true⟩,
         ⟨"b", "B", "#222222", [⟨0, 5⟩], some true⟩]).Pairwise
      (fun a b => a.timestamp < b.timestamp) :=
  ⟨by decide,
    (alignment_correct
      [⟨"a", "A", "#111111", [⟨0, 1⟩, ⟨10, 2⟩], some true⟩,
       ⟨"b", "B", "#222222", [⟨0, 5⟩], some true⟩]
      (by decide) (by decide)).1⟩

/-! ## Interaction mode controller -/

/-- The value of `interactionModeRef.current`. -/
inductive InteractionMode where
  | zoom
  | pan
  | brush
  deriving Repr, DecidableEq

/-- `selectedArea : {start?: number, end?: number}` — both fields optional. -/
structure SelectedArea where
  start : Option Nat
  stop : Option Nat
  deriving Repr, DecidableEq

/-- The interaction-related state of one `TimeSeriesChart` instance. -/
structure ModeState where
  zoomMode : Bool
  panMode : Bool
  brushMode : Bool
  crosshairMode : Bool
  selectedArea : SelectedArea
  yAxisDomain : Option (ℚ × ℚ)
  yAxisScale : ℚ
  interactionMode : Option InteractionMode
  deriving Repr, DecidableEq

/-- The `useEffect` watching `[zoomMode, panMode, brushMode]`: priority order
zoom, then pan, then brush; the winning mode clears the other two flags and
sets `interactionModeRef`. Running it twice changes nothing, so this is the
settled state React reaches after a mode flag changes. -/
def syncInteractionMode (s : ModeState) : ModeState :=
  if s.zoomMode then
    { s with interactionMode := some InteractionMode.zoom,
             panMode := false, brushMode := false }
  else if s.panMode then
    { s with interactionMode := some InteractionMode.pan,
             zoomMode := false, brushMode := false }
  else if s.brushMode then
    { s with interactionMode := some InteractionMode.brush,
             zoomMode := false, panMode := false }
  else
    { s with interactionMode := none }

/-- The zoom toolbar button: `setZoomMode(!zoomMode)`, then the settled
effect. -/
def clickZoom (s : ModeState) : ModeState :=
  syncInteractionMode { s with zoomMode := !s.zoomMode }

/-- The pan toolbar button: `setPanMode(!panMode)`, then the settled effect. -/
def clickPan (s : ModeState) : ModeState :=
  syncInteractionMode { s with panMode := !s.panMode }

/-- The brush toolbar button: `setBrushMode(!brushMode)`, then the settled
effect. -/
def clickBrush (s : ModeState) : ModeState :=
  syncInteractionMode { s with brushMode := !s.brushMode }

/-- `handleResetView`, followed by the settled effect (all mode flags are
false afterwards, so the effect only nulls the ref). -/
def handleResetView (s : ModeState) : ModeState :=
  syncInteractionMode
    { s with yAxisDomain := none, yAxisScale := 100,
             brushMode := false, panMode := false, zoomMode := false,
             selectedArea := ⟨none, none⟩ }

/-- How many of the three exclusive mode flags are set. -/
def activeModeCount (s : ModeState) : Nat :=
  (if s.zoomMode then 1 else 0) + (if s.panMode then 1 else 0) +
    (if s.brushMode then 1 else 0)

/-- **C2** (counterexample): enabling Pan while Zoom is active does not force
the other two modes inactive with Pan active — the effect's priority order
lets Zoom win and reverts Pan, so after the click Zoom is still the active
mode and Pan is off. -/
theorem modeExclusion_counterexample :
    ¬ ((clickPan ⟨true, false, false, true, ⟨none, none⟩, none, 100,
          some InteractionMode.zoom⟩).panMode = true ∧
       (clickPan ⟨true, false, false, true, ⟨none, none⟩, none, 100,
          some InteractionMode.zoom⟩).zoomMode = false ∧
       (clickPan ⟨true, false, false, true, ⟨none, none⟩, none, 100,
          some InteractionMode.zoom⟩).brushMode = false) := by
  decide

/-- **C2** (amended): after any settled mode transition at most one of
{Zoom, Pan, Brush} is active; enabling Zoom always activates it exclusively;
enabling Pan activates it exclusively provided Zoom is off; enabling Brush
activates it exclusively provided Zoom and Pan are off (conflicts resolve
with priority Zoom > Pan > Brush); resetting the view clears all three modes,
the interaction ref, and the transient SelectionRange. -/
theorem modeExclusion_amended (s : ModeState) :
    (activeModeCount (clickZoom s) ≤ 1 ∧ activeModeCount (clickPan s) ≤ 1 ∧
      activeModeCount (clickBrush s) ≤ 1 ∧
      activeModeCount (handleResetView s) ≤ 1) ∧
    (s.zoomMode = false →
      (clickZoom s).zoomMode = true ∧ (clickZoom s).panMode = false ∧
        (clickZoom s).brushMode = false) ∧
    (s.panMode = false → s.zoomMode = false →
      (clickPan s).panMode = true ∧ (clickPan s).zoomMode = false ∧
        (clickPan s).brushMode = false) ∧
    (s.brushMode = false → s.zoomMode = false → s.panMode = false →
      (clickBrush s).brushMode = true ∧ (clickBrush s).zoomMode = false ∧
        (clickBrush s).panMode = false) ∧
    ((handleResetView s).zoomMode = false ∧ (handleResetView s).panMode = false ∧
      (handleResetView s).brushMode = false ∧
      (handleResetView s).selectedArea = ⟨none, none⟩ ∧
      (handleResetView s).interactionMode = none) := by
  rcases s with ⟨z, p, b, c, sa, yd, ys, im⟩
  cases z <;> cases p <;> cases b <;>
    simp [clickZoom, clickPan, clickBrush, handleResetView,
      syncInteractionMode, activeModeCount]

/-- Witness for `modeExclusion_amended`: enabling Pan from an idle state
activates exactly Pan. -/
theorem modeExclusion_amended_witness :
    (clickPan ⟨false, false, false, true, ⟨none, none⟩, none, 100,
        none⟩).panMode = true ∧
    (clickPan ⟨false, false, false, true, ⟨none, none⟩, none, 100,
        none⟩).zoomMode = false ∧
    (clickPan ⟨false, false, false, true, ⟨none, none⟩, none, 100,
        none⟩).brushMode = false :=
  (modeExclusion_amended
    ⟨false, false, false, true, ⟨none, none⟩, none, 100, none⟩).2.2.1 rfl rfl

/-! ## Series visibility toggling -/

/-- `handleToggleSeries`: map over the store, replacing the series whose id
matches with a copy whose `visible` field is the ternary
`s.visible === false ? true : false`; all other series pass through
untouched. -/
def handleToggleSeries (ss : List TimeSeriesData) (id : String) :
    List TimeSeriesData :=
  ss.map fun s =>
    if s.id = id then
      { s with visible := some (if s.visible = some false then true else false) }
    else s

/-- **C9**: toggling a series flips only that series' visibility: the length
and order of the store are preserved; every series whose id differs is left
entirely unchanged (same object); the matched series keeps its id, name,
color and its points sequence identically, and its effective visibility is
negated. -/
theorem toggleSeries_frame (ss : List TimeSeriesData) (id : String) :
    (handleToggleSeries ss id).length = ss.length ∧
    ∀ i : ℕ, ∀ s s' : TimeSeriesData,
      ss[i]? = some s → (handleToggleSeries ss id)[i]? = some s' →
      (s.id ≠ id → s' = s) ∧
      (s.id = id → s'.id = s.id ∧ s'.name = s.name ∧ s'.color = s.color ∧
        s'.data = s.data ∧ seriesShown s' = !seriesShown s) := by
  constructor
  · simp [handleToggleSeries]
  · intro i s s' hs hs'
    rw [handleToggleSeries, List.getElem?_map, hs] at hs'
    rw [Option.map_some'] at hs'
    obtain rfl := (Option.some.inj hs').symm
    constructor
    · intro hne; simp [hne]
    · intro heq
      rcases hv : s.visible with _ | b
      · simp [heq, seriesShown, hv]
      · cases b <;> simp [heq, seriesShown, hv]

/-- Witness for `toggleSeries_frame`: a two-series store where the toggled
series becomes hidden and the other is untouched. -/
theorem toggleSeries_frame_witness :
    (([⟨"a", "A", "#111111", [⟨0, 1⟩], some true⟩,
       ⟨"b", "B", "#222222", [⟨0, 5⟩], some true⟩] :
        List TimeSeriesData)[0]? = some ⟨"a", "A", "#111111", [⟨0, 1⟩], some true⟩) ∧
    ((handleToggleSeries
        [⟨"a", "A", "#111111", [⟨0, 1⟩], some true⟩,
         ⟨"b", "B", "#222222", [⟨0, 5⟩], some true⟩] "a")[0]? =
      some ⟨"a", "A", "#111111", [⟨0, 1⟩], some false⟩) ∧
    ((⟨"a", "A", "#111111", [⟨0, 1⟩], some false⟩ : TimeSeriesData).data =
        [⟨0, 1⟩] ∧
      seriesShown ⟨"a", "A", "#111111", [⟨0, 1⟩], some false⟩ =
        !seriesShown ⟨"a", "A", "#111111", [⟨0, 1⟩], some true⟩) :=
  ⟨by decide, by decide,
    ((toggleSeries_frame
        [⟨"a", "A", "#111111", [⟨0, 1⟩], some true⟩,
         ⟨"b", "B", "#222222", [⟨0, 5⟩], some true⟩] "a").2 0
      ⟨"a", "A", "#111111", [⟨0, 1⟩], some true⟩
      ⟨"a", "A", "#111111", [⟨0, 1⟩], some false⟩
      (by decide) (by decide)).2 rfl |>.2.2.2⟩

/-! ## Y-axis domain calculation -/

/-- One accumulation step of the raw min/max scan
(`min = Math.min(min, point.value); max = Math.max(max, point.value)`). -/
def minMaxStep (a : Option (ℚ × ℚ)) (p : DataPoint) : Option (ℚ × ℚ) :=
  match a with
  | none => some (p.value, p.value)
  | some (mn, mx) => some (min mn p.value, max mx p.value)

/-- The scan of `calculateYAxisDomain`: every point of every series that is
not explicitly hidden, starting from the `Infinity` / `-Infinity` sentinels
(modelled by `none` = untouched). -/
def scanMinMax (series : List TimeSeriesData) : Option (ℚ × ℚ) :=
  series.foldl
    (fun acc s =>
      if s.visible = some false then acc else s.data.foldl minMaxStep acc)
    none

/-- `calculateYAxisDomain` of `TimeSeriesChart`, reading the component state
`chartData`, `series` and `yAxisScale`. The `none` branch of the scan is
unreachable whenever `chartData` is the alignment of `series` and nonempty
(the JS sentinels would produce an infinite degenerate domain there); the
`0.1` padding factor and `/100` scale are exact on the rationals. -/
def calculateYAxisDomain (chartData : List ChartRow)
    (series : List TimeSeriesData) (yAxisScale : ℚ) : ℚ × ℚ :=
  if chartData.isEmpty then (0, 100)
  else
    match scanMinMax series with
    | none => (0, 100)
    | some (mn, mx) =>
      let padding := (mx - mn) * (1 / 10)
      let lo := max 0 (mn - padding)
      let hi := mx + padding
      if yAxisScale ≠ 100 then (lo, lo + (hi - lo) * (yAxisScale / 100))
      else (lo, hi)

theorem scanMinMax_eq_filter (ss : List TimeSeriesData) :
    scanMinMax ss =
      (ss.filter seriesShown).foldl (fun a s => s.data.foldl minMaxStep a) none := by
  rw [scanMinMax]
  generalize (none : Option (ℚ × ℚ)) = a
  induction ss generalizing a with
  | nil => simp
  | cons s tl ih =>
    by_cases h : s.visible = some false
    · have : seriesShown s = false := by simp [seriesShown, h]
      rw [List.foldl_cons, if_pos h, List.filter_cons_of_neg (by simp [this]), ih]
    · have : seriesShown s = true := by simp [seriesShown, h]
      rw [List.foldl_cons, if_neg h, List.filter_cons_of_pos (by simp [this]),
        List.foldl_cons, ih]

theorem foldl_minMaxStep_const (ps : List DataPoint) (v : ℚ)
    (hconst : ∀ p ∈ ps, p.value = v) :
    ps.foldl minMaxStep (some (v, v)) = some (v, v) := by
  induction ps with
  | nil => rfl
  | cons p tl ih =>
    have hp : p.value = v := hconst p (List.mem_cons_self _ _)
    rw [List.foldl_cons]
    have : minMaxStep (some (v, v)) p = some (v, v) := by
      simp [minMaxStep, hp]
    rw [this]
    exact ih (fun q hq => hconst q (List.mem_cons_of_mem _ hq))

theorem foldl_minMaxStep_const_of_ne (ps : List DataPoint) (v : ℚ)
    (hne : ps ≠ []) (hconst : ∀ p ∈ ps, p.value = v) :
    ps.foldl minMaxStep none = some (v, v) := by
  rcases ps with _ | ⟨p, tl⟩
  · exact absurd rfl hne
  · have hp : p.value = v := hconst p (List.mem_cons_self _ _)
    rw [List.foldl_cons]
    have h1 : minMaxStep none p = some (v, v) := by simp [minMaxStep, hp]
    rw [h1]
    exact foldl_minMaxStep_const tl v
      (fun q hq => hconst q (List.mem_cons_of_mem _ hq))

/-- If the visible series sets are empty of points, the aligned data is
empty. -/
theorem computeChartData_eq_nil (ss : List TimeSeriesData)
    (h : ∀ s ∈ ss.filter seriesShown, s.data = []) :
    computeChartData ss = [] := by
  rw [computeChartData]
  by_cases hempty : ss.isEmpty
  · rw [if_pos hempty]
  · rw [if_neg hempty, buildChartData]
    have hraw : (ss.filter seriesShown).foldl processSeries [] = [] := by
      rw [List.eq_nil_iff_forall_not_mem]
      intro r hr
      have : r.timestamp ∈ rowsKeys ((ss.filter seriesShown).foldl processSeries []) :=
        List.mem_map.mpr ⟨r, hr, rfl⟩
      rcases (mem_rowsKeys_foldSeries _ _ _).mp this with h0 | ⟨s, hs, p, hp, _⟩
      · simp [rowsKeys] at h0
      · rw [h s hs] at hp
        cases hp
    rw [hraw]
    rfl

/-- **C3** (counterexample): for a single visible series constantly equal to
`-1`, the domain is `[0, -1]` (the lower bound is clamped at zero), not
`[-1, -1]` as the claim requires for every constant value. -/
theorem domain_constant_counterexample :
    calculateYAxisDomain
        (computeChartData [⟨"a", "A", "#111111", [⟨0, -1⟩], some true⟩])
        [⟨"a", "A", "#111111", [⟨0, -1⟩], some true⟩] 100 = (0, -1) ∧
      ((0 : ℚ), (-1 : ℚ)) ≠ ((-1 : ℚ), (-1 : ℚ)) := by
  have h1 : computeChartData [⟨"a", "A", "#111111", [⟨0, -1⟩], some true⟩] =
      [⟨0, [("a", -1)]⟩] := by decide
  have h2 : scanMinMax [⟨"a", "A", "#111111", [⟨0, -1⟩], some true⟩] =
      some (-1, -1) := by decide
  constructor
  · rw [h1]
    unfold calculateYAxisDomain
    rw [if_neg (by decide), h2]
    norm_num
  · decide

/-- **C3** (amended): with no visible data points the domain falls back to
`[0, 100]`; for a single visible series whose points all carry the same
nonnegative value `v` (and at least one point), the domain is exactly
`[v, v]` at the default 100% scale — zero padding, no minimum-height
correction. (For negative constant `v` the zero-clamp on the lower bound
yields `[0, v]` instead.) -/
theorem domain_fallback_and_constant (ss : List TimeSeriesData)
    (s0 : TimeSeriesData) (v : ℚ) :
    ((∀ s ∈ ss.filter seriesShown, s.data = []) →
      calculateYAxisDomain (computeChartData ss) ss 100 = (0, 100)) ∧
    (ss.filter seriesShown = [s0] → s0.data ≠ [] →
      (∀ p ∈ s0.data, p.value = v) → 0 ≤ v →
      calculateYAxisDomain (computeChartData ss) ss 100 = (v, v)) := by
  constructor
  · intro h
    rw [computeChartData_eq_nil ss h, calculateYAxisDomain]
    rfl
  · intro hvis hne hconst hv
    have hscan : scanMinMax ss = some (v, v) := by
      rw [scanMinMax_eq_filter, hvis]
      simp only [List.foldl_cons, List.foldl_nil]
      exact foldl_minMaxStep_const_of_ne s0.data v hne hconst
    have hnonempty : ¬ (computeChartData ss).isEmpty = true := by
      rw [List.isEmpty_iff]
      intro hnil
      obtain ⟨p, hp⟩ := List.exists_mem_of_ne_nil s0.data hne
      have hss : ¬ ss.isEmpty = true := by
        rw [List.isEmpty_iff]
        intro h0
        rw [h0] at hvis
        cases hvis
      rw [computeChartData, if_neg hss, buildChartData] at hnil
      have hmem : p.timestamp ∈
          rowsKeys ((ss.filter seriesShown).foldl processSeries []) :=
        (mem_rowsKeys_foldSeries _ _ _).mpr
          (Or.inr ⟨s0, by rw [hvis]; exact List.mem_cons_self _ _, p, hp, rfl⟩)
      have hperm := List.perm_insertionSort rowLE
        ((ss.filter seriesShown).foldl processSeries [])
      rw [hnil] at hperm
      rw [rowsKeys, List.mem_map] at hmem
      obtain ⟨r, hr, _⟩ := hmem
      exact (List.not_mem_nil r) (hperm.symm.mem_iff.mp hr)
    rw [calculateYAxisDomain, if_neg hnonempty, hscan]
    have hpad : (v - v) * (1 / 10) = 0 := by ring
    simp only [hpad, sub_zero, add_zero, max_eq_right hv]
    rw [if_neg (by simp)]

/-- Witness for `domain_fallback_and_constant`: a single visible series with
two points of constant value 7 gives the domain `[7, 7]`. -/
theorem domain_fallback_and_constant_witness :
    (([⟨"a", "A", "#111111", [⟨0, 7⟩, ⟨10, 7⟩], some true⟩] :
        List TimeSeriesData).filter seriesShown =
      [⟨"a", "A", "#111111", [⟨0, 7⟩, ⟨10, 7⟩], some true⟩]) ∧
    calculateYAxisDomain
        (computeChartData [⟨"a", "A", "#111111", [⟨0, 7⟩, ⟨10, 7⟩], some true⟩])
        [⟨"a", "A", "#111111", [⟨0, 7⟩, ⟨10, 7⟩], some true⟩] 100 = (7, 7) :=
  ⟨by decide,
    (domain_fallback_and_constant
        [⟨"a", "A", "#111111", [⟨0, 7⟩, ⟨10, 7⟩], some true⟩]
        ⟨"a", "A", "#111111", [⟨0, 7⟩, ⟨10, 7⟩], some true⟩ 7).2
      (by decide) (by decide) (by decide) (by decide)⟩

/-! ## Time-Range Resolver (`getTimeRangeFromValue` of `time-utils.ts`) -/

/-- JS `value.endsWith(u)` for a single-character suffix: the last character
matches. -/
def jsEndsWith (s : String) (c : Char) : Bool :=
  s.toList.getLast? = some c

/-- JS `value.replace(u, '')` for a single-character pattern: remove the
first occurrence, leave the rest untouched. -/
def removeFirstChar : List Char → Char → List Char
  | [], _ => []
  | x :: xs, c => if x = c then xs else x :: removeFirstChar xs c

/-- Positional value of a digit sequence. -/
def digitsVal (ds : List Char) : ℕ :=
  ds.foldl (fun acc c => acc * 10 + (c.toNat - 48)) 0

/-- JS `parseInt(s)` restricted to base-10 inputs: skip leading spaces, an
optional sign, then the longest digit prefix; `none` models `NaN` when no
digit is found. (The automatic `0x` hex detection of `parseInt` is not
modelled; no input considered here starts with `0x`.) -/
def jsParseInt (s : String) : Option ℤ :=
  let cs := s.toList.dropWhile (fun c => c = ' ')
  if cs.head? = some '-' then
    let ds := cs.tail.takeWhile Char.isDigit
    if ds.isEmpty then none else some (-(digitsVal ds : ℤ))
  else if cs.head? = some '+' then
    let ds := cs.tail.takeWhile Char.isDigit
    if ds.isEmpty then none else some ((digitsVal ds : ℤ))
  else
    let ds := cs.takeWhile Char.isDigit
    if ds.isEmpty then none else some ((digitsVal ds : ℤ))

/-- `getTimeRangeFromValue`: resolve a symbolic range token against the
current instant `now` (epoch millis). `date-fns` `subMinutes` / `subHours` /
`subDays` with a `NaN` amount yield an Invalid Date, modelled as `none` for
the start instant; the end instant is always `now`. -/
def getTimeRangeFromValue (value : String) (now : ℤ) : Option ℤ × ℤ :=
  if jsEndsWith value 'm' then
    match jsParseInt (String.mk (removeFirstChar value.toList 'm')) with
    | some k => (some (now - k * 60000), now)
    | none => (none, now)
  else if jsEndsWith value 'h' then
    match jsParseInt (String.mk (removeFirstChar value.toList 'h')) with
    | some k => (some (now - k * 3600000), now)
    | none => (none, now)
  else if jsEndsWith value 'd' then
    match jsParseInt (String.mk (removeFirstChar value.toList 'd')) with
    | some k => (some (now - k * 86400000), now)
    | none => (none, now)
  else
    (some (now - 3600000), now)

theorem char_digit_facts (c : Char) (h : c.isDigit = true) :
    c ≠ ' ' ∧ c ≠ '-' ∧ c ≠ '+' ∧ c ≠ 'm' ∧ c ≠ 'h' ∧ c ≠ 'd' := by
  refine ⟨?_, ?_, ?_, ?_, ?_, ?_⟩ <;>
    (intro hc; rw [hc] at h; exact absurd h (by decide))

theorem removeFirstChar_append_of_not_mem (l : List Char) (c : Char)
    (h : ∀ x ∈ l, x ≠ c) : removeFirstChar (l ++ [c]) c = l := by
  induction l with
  | nil => simp [removeFirstChar]
  | cons x xs ih =>
    have hx : x ≠ c := h x (List.mem_cons_self _ _)
    simp only [List.cons_append, removeFirstChar, if_neg hx, List.append_eq]
    rw [ih (fun y hy => h y (List.mem_cons_of_mem _ hy))]

theorem takeWhile_eq_self_of_all {p : Char → Bool} (l : List Char)
    (h : ∀ c ∈ l, p c = true) : l.takeWhile p = l := by
  induction l with
  | nil => rfl
  | cons x xs ih =>
    rw [List.takeWhile_cons, if_pos (h x (List.mem_cons_self _ _)),
      ih (fun y hy => h y (List.mem_cons_of_mem _ hy))]

theorem jsParseInt_digits (ds : List Char) (hne : ds ≠ [])
    (hdig : ∀ c ∈ ds, c.isDigit = true) :
    jsParseInt (String.mk ds) = some ((digitsVal ds : ℤ)) := by
  rcases ds with _ | ⟨d, tl⟩
  · exact absurd rfl hne
  · obtain ⟨hsp, hminus, hplus, -, -, -⟩ :=
      char_digit_facts d (hdig d (List.mem_cons_self _ _))
    have h1 : (String.mk (d :: tl)).toList.dropWhile (fun c => c = ' ') = d :: tl := by
      show (d :: tl).dropWhile (fun c => c = ' ') = d :: tl
      rw [List.dropWhile_cons, if_neg (by simp [hsp])]
    rw [jsParseInt]
    simp only [h1]
    rw [if_neg (by simp [List.head?]; exact hminus),
      if_neg (by simp [List.head?]; exact hplus)]
    rw [takeWhile_eq_self_of_all _ hdig]
    simp

/-- **C4** (counterexample): the malformed token "xm" ends in 'm', so the
resolver tries `parseInt("x")`, gets `NaN`, and produces an invalid start
instant instead of the 1-hour default window. -/
theorem resolveRange_counterexample :
    getTimeRangeFromValue "xm" 0 = (none, 0) ∧
      getTimeRangeFromValue "xm" 0 ≠ (some (0 - 3600000), 0) := by
  constructor
  · decide
  · decide

/-- **C4** (amended): every well-formed token `<digits><unit>` with unit in
{m, h, d} resolves to the window ending at `now` whose width is exactly the
token's duration; every token NOT ending in 'm', 'h' or 'd' falls back to
the 1-hour default window. (A malformed token that does end in one of those
letters yields an invalid NaN start instant instead of the default — see the
counterexample.) -/
theorem resolveRange_amended (ds : List Char) (value : String) (now : ℤ)
    (hne : ds ≠ []) (hdig : ∀ c ∈ ds, c.isDigit = true) :
    (getTimeRangeFromValue (String.mk (ds ++ ['m'])) now =
        (some (now - (digitsVal ds : ℤ) * 60000), now)) ∧
    (getTimeRangeFromValue (String.mk (ds ++ ['h'])) now =
        (some (now - (digitsVal ds : ℤ) * 3600000), now)) ∧
    (getTimeRangeFromValue (String.mk (ds ++ ['d'])) now =
        (some (now - (digitsVal ds : ℤ) * 86400000), now)) ∧
    (jsEndsWith value 'm' = false → jsEndsWith value 'h' = false →
      jsEndsWith value 'd' = false →
      getTimeRangeFromValue value now = (some (now - 3600000), now)) := by
  have hlast : ∀ u : Char, (String.mk (ds ++ [u])).toList.getLast? = some u := by
    intro u
    show (ds ++ [u]).getLast? = some u
    rw [List.getLast?_concat]
  refine ⟨?_, ?_, ?_, ?_⟩
  · rw [getTimeRangeFromValue, if_pos (by rw [jsEndsWith, hlast]; decide)]
    have hrm : removeFirstChar (String.mk (ds ++ ['m'])).toList 'm' = ds :=
      removeFirstChar_append_of_not_mem ds 'm'
        (fun x hx => (char_digit_facts x (hdig x hx)).2.2.2.1)
    rw [hrm, jsParseInt_digits ds hne hdig]
  · rw [getTimeRangeFromValue,
      if_neg (by rw [jsEndsWith, hlast]; decide),
      if_pos (by rw [jsEndsWith, hlast]; decide)]
    have hrm : removeFirstChar (String.mk (ds ++ ['h'])).toList 'h' = ds :=
      removeFirstChar_append_of_not_mem ds 'h'
        (fun x hx => (char_digit_facts x (hdig x hx)).2.2.2.2.1)
    rw [hrm, jsParseInt_digits ds hne hdig]
  · rw [getTimeRangeFromValue,
      if_neg (by rw [jsEndsWith, hlast]; decide),
      if_neg (by rw [jsEndsWith, hlast]; decide),
      if_pos (by rw [jsEndsWith, hlast]; decide)]
    have hrm : removeFirstChar (String.mk (ds ++ ['d'])).toList 'd' = ds :=
      removeFirstChar_append_of_not_mem ds 'd'
        (fun x hx => (char_digit_facts x (hdig x hx)).2.2.2.2.2)
    rw [hrm, jsParseInt_digits ds hne hdig]
  · intro hm hh hd
    rw [getTimeRangeFromValue, if_neg (by rw [hm]; intro h; cases h),
      if_neg (by rw [hh]; intro h; cases h),
      if_neg (by rw [hd]; intro h; cases h)]

/-- Witness for `resolveRange_amended`: the token "15m" resolves to a
15-minute window ending at `now = 0`, and "bogus" falls back to 1 hour. -/
theorem resolveRange_amended_witness :
    (getTimeRangeFromValue (String.mk (['1', '5'] ++ ['m'])) 0 =
        (some (0 - (digitsVal ['1', '5'] : ℤ) * 60000), 0)) ∧
    getTimeRangeFromValue "bogus" 0 = (some (0 - 3600000), 0) :=
  ⟨(resolveRange_amended ['1', '5'] "bogus" 0 (by decide) (by decide)).1,
    (resolveRange_amended ['1', '5'] "bogus" 0 (by decide)
      (by decide)).2.2.2 (by decide) (by decide) (by decide)⟩

/-! ## Brush selection handlers -/

/-- The payload of a recharts brush change event. -/
structure BrushData where
  startIndex : Nat
  endIndex : Nat
  deriving Repr, DecidableEq

/-- JS truthiness of `selectedArea.start` / `.end`: an index is truthy iff it
is defined and nonzero. -/
def truthyIdx (o : Option Nat) : Bool :=
  match o with
  | some n => n != 0
  | none => false

/-- `handleBrushChange`: drop falsy payloads (`!brushData`,
`!brushData.startIndex`, `!brushData.endIndex` — note index 0 is falsy),
clear the stored selection on a zero-width event, otherwise store the pair. -/
def handleBrushChange (sel : SelectedArea) (bd : Option BrushData) : SelectedArea :=
  match bd with
  | none => sel
  | some b =>
    if b.startIndex = 0 || b.endIndex = 0 then sel
    else if b.startIndex = b.endIndex then ⟨none, none⟩
    else ⟨some b.startIndex, some b.endIndex⟩

/-- `handleBrushApply`: refuse falsy or zero-width stored selections, then
look up both endpoints in `chartData` and emit a custom window (second
component; `none` = `onTimeRangeChange` not invoked). The source indexes
`chartData` unchecked; the out-of-range lookup is modelled as no emission
(in JS it would throw before emitting). -/
def handleBrushApply (sel : SelectedArea) (chartData : List ChartRow) :
    SelectedArea × Option (ℤ × ℤ) :=
  if !truthyIdx sel.start || !truthyIdx sel.stop || sel.start == sel.stop then
    (sel, none)
  else if 0 < chartData.length then
    match sel.start, sel.stop with
    | some i, some j =>
      match chartData[i]?, chartData[j]? with
      | some a, some b => (⟨none, none⟩, some (a.timestamp, b.timestamp))
      | _, _ => (sel, none)
    | _, _ => (sel, none)
  else (sel, none)

/-- `handleBrushEnd` of the sibling chart variant: reject zero-width or
empty-data selections, otherwise emit the window at the two indices. -/
def handleBrushEnd (chartData : List ChartRow) (startIndex endIndex : Nat) :
    Option (ℤ × ℤ) :=
  if startIndex = endIndex || chartData.length = 0 then none
  else
    match chartData[startIndex]?, chartData[endIndex]? with
    | some a, some b => some (a.timestamp, b.timestamp)
    | _, _ => none

/-- **C5**: a zero-width brush selection never leads to a time-window
emission: a zero-width change event never stores a selection (it leaves the
store unchanged or clears it); applying a stored zero-width selection emits
nothing; and `handleBrushEnd` with equal indices emits nothing. -/
theorem zeroWidthSelection_noEmit (sel : SelectedArea) (cd : List ChartRow)
    (b : BrushData) (i : Nat) (hb : b.startIndex = b.endIndex) :
    (handleBrushChange sel (some b) = sel ∨
      handleBrushChange sel (some b) = ⟨none, none⟩) ∧
    (∀ s' : SelectedArea, s'.start = s'.stop →
      (handleBrushApply s' cd).2 = none) ∧
    handleBrushEnd cd i i = none := by
  refine ⟨?_, ?_, ?_⟩
  · rw [handleBrushChange]
    by_cases h0 : b.startIndex = 0 || b.endIndex = 0
    · rw [if_pos h0]; exact Or.inl rfl
    · rw [if_neg h0, if_pos hb]; exact Or.inr rfl
  · rintro ⟨os, oe⟩ h
    simp only at h
    subst h
    rw [handleBrushApply, if_pos (by cases truthyIdx os <;> simp)]
  · rw [handleBrushEnd, if_pos (by simp)]

/-- Witness for `zeroWidthSelection_noEmit` at a concrete zero-width brush
event and stored selection. -/
theorem zeroWidthSelection_noEmit_witness :
    (handleBrushChange ⟨some 2, some 3⟩ (some ⟨5, 5⟩) = ⟨some 2, some 3⟩ ∨
      handleBrushChange ⟨some 2, some 3⟩ (some ⟨5, 5⟩) = ⟨none, none⟩) ∧
    (∀ s' : SelectedArea, s'.start = s'.stop →
      (handleBrushApply s' [⟨0, [("a", 1)]⟩]).2 = none) ∧
    handleBrushEnd [⟨0, [("a", 1)]⟩] 4 4 = none :=
  zeroWidthSelection_noEmit ⟨some 2, some 3⟩ [⟨0, [("a", 1)]⟩] ⟨5, 5⟩ 4 rfl

/-- **C10**: a brush event whose start or end index is 0 is discarded by
`handleBrushChange` without touching the stored selection, and
`handleBrushApply` refuses any stored selection whose start index is 0
(emitting nothing and leaving the selection in place): a selection starting
at the first data row never changes the time window. -/
theorem brushIndexZero_guard (sel : SelectedArea) (cd : List ChartRow)
    (b : BrushData) (o : Option Nat)
    (hb : b.startIndex = 0 ∨ b.endIndex = 0) :
    handleBrushChange sel (some b) = sel ∧
    (handleBrushApply ⟨some 0, o⟩ cd).2 = none ∧
    (handleBrushApply ⟨some 0, o⟩ cd).1 = ⟨some 0, o⟩ := by
  refine ⟨?_, ?_, ?_⟩
  · rw [handleBrushChange, if_pos ?_]
    rcases hb with h | h <;> simp [h]
  · rw [handleBrushApply, if_pos (by simp [truthyIdx])]
  · rw [handleBrushApply, if_pos (by simp [truthyIdx])]

/-- Witness for `brushIndexZero_guard`: a nonzero-width brush event starting
at index 0 is discarded, and applying a stored selection starting at 0 emits
nothing. -/
theorem brushIndexZero_guard_witness :
    handleBrushChange ⟨some 7, some 9⟩ (some ⟨0, 4⟩) = ⟨some 7, some 9⟩ ∧
    (handleBrushApply ⟨some 0, some 4⟩ [⟨0, [("a", 1)]⟩]).2 = none ∧
    (handleBrushApply ⟨some 0, some 4⟩ [⟨0, [("a", 1)]⟩]).1 = ⟨some 0, some 4⟩ :=
  brushIndexZero_guard ⟨some 7, some 9⟩ [⟨0, [("a", 1)]⟩] ⟨0, 4⟩ (some 4)
    (Or.inl rfl)

/-! ## Refresh scheduler -/

/-- The timer environment plus the component's scheduler state: `timers`
lists the installed, not-yet-cleared interval timers of this chart instance
as (id, interval in ms); `nextId` is the next id `window.setInterval` hands
out; `refreshTimerRef` models `refreshTimerRef.current`;
`refreshInterval` the state set by `setRefreshInterval`. -/
structure SchedulerState where
  timers : List (Nat × Nat)
  nextId : Nat
  refreshTimerRef : Option Nat
  refreshInterval : Nat
  deriving Repr, DecidableEq

/-- `window.clearInterval(id)`: remove the timer with that id. -/
def clearIntervalTimer (timers : List (Nat × Nat)) (id : Nat) : List (Nat × Nat) :=
  timers.filter (fun t => t.1 ≠ id)

/-- `handleRefreshIntervalChange(interval)`: store the cadence, cancel the
current timer if any, and install one new periodic timer at
`interval * 1000` ms when the cadence is positive. -/
def handleRefreshIntervalChange (s : SchedulerState) (interval : Nat) :
    SchedulerState :=
  let s1 := { s with refreshInterval := interval }
  let s2 :=
    match s1.refreshTimerRef with
    | some id =>
      { s1 with timers := clearIntervalTimer s1.timers id, refreshTimerRef := none }
    | none => s1
  if 0 < interval then
    { s2 with timers := s2.timers ++ [(s2.nextId, interval * 1000)],
              refreshTimerRef := some s2.nextId,
              nextId := s2.nextId + 1 }
  else s2

/-- The scheduler owns at most the single timer its ref points to: the state
reachable from mount (no timer, null ref) through the handler. -/
def ownsOnlyTimer (s : SchedulerState) : Prop :=
  (s.refreshTimerRef = none ∧ s.timers = []) ∨
    ∃ id iv, s.refreshTimerRef = some id ∧ s.timers = [(id, iv)]

/-- **C6**: from any state in which the chart owns at most its one ref'd
timer (true at mount and preserved by every cadence change), setting the
cadence to 0 cancels the pending timer and leaves none active, and setting
it to a positive value leaves exactly one periodic timer at `interval*1000`
ms — in particular changing between two nonzero cadences never leaves two
timers ticking. -/
theorem refreshScheduler_exclusive (s : SchedulerState) (interval : Nat)
    (h : ownsOnlyTimer s) :
    ownsOnlyTimer (handleRefreshIntervalChange s interval) ∧
    (interval = 0 →
      (handleRefreshIntervalChange s interval).timers = [] ∧
      (handleRefreshIntervalChange s interval).refreshTimerRef = none) ∧
    (0 < interval → ∃ id,
      (handleRefreshIntervalChange s interval).timers = [(id, interval * 1000)] ∧
      (handleRefreshIntervalChange s interval).refreshTimerRef = some id) := by
  have key : (handleRefreshIntervalChange s interval).timers =
        (if 0 < interval then [(s.nextId, interval * 1000)] else []) ∧
      (handleRefreshIntervalChange s interval).refreshTimerRef =
        (if 0 < interval then some s.nextId else none) := by
    rcases h with ⟨href, htimers⟩ | ⟨id, iv, href, htimers⟩ <;>
      by_cases hi : 0 < interval <;>
        simp [handleRefreshIntervalChange, href, htimers, clearIntervalTimer, hi]
  obtain ⟨kt, kr⟩ := key
  refine ⟨?_, ?_, ?_⟩
  · by_cases hi : 0 < interval
    · exact Or.inr ⟨s.nextId, interval * 1000,
        by rw [kr, if_pos hi], by rw [kt, if_pos hi]⟩
    · exact Or.inl ⟨by rw [kr, if_neg hi], by rw [kt, if_neg hi]⟩
  · intro h0
    subst h0
    exact ⟨by rw [kt]; rfl, by rw [kr]; rfl⟩
  · intro hi
    exact ⟨s.nextId, by rw [kt, if_pos hi], by rw [kr, if_pos hi]⟩

/-- Witness for `refreshScheduler_exclusive`: changing the cadence from 5s
to 10s replaces the single 5000 ms timer by a single 10000 ms one. -/
theorem refreshScheduler_exclusive_witness :
    ownsOnlyTimer ⟨[(3, 5000)], 4, some 3, 5⟩ ∧
    ownsOnlyTimer (handleRefreshIntervalChange ⟨[(3, 5000)], 4, some 3, 5⟩ 10) ∧
    (0 < 10 → ∃ id,
      (handleRefreshIntervalChange ⟨[(3, 5000)], 4, some 3, 5⟩ 10).timers =
        [(id, 10 * 1000)] ∧
      (handleRefreshIntervalChange ⟨[(3, 5000)], 4, some 3, 5⟩ 10).refreshTimerRef =
        some id) :=
  ⟨Or.inr ⟨3, 5000, rfl, rfl⟩,
    (refreshScheduler_exclusive ⟨[(3, 5000)], 4, some 3, 5⟩ 10
      (Or.inr ⟨3, 5000, rfl, rfl⟩)).1,
    (refreshScheduler_exclusive ⟨[(3, 5000)], 4, some 3, 5⟩ 10
      (Or.inr ⟨3, 5000, rfl, rfl⟩)).2.2⟩

/-! ## CSV export -/

/-- JS number-to-string coercion in the template literal, for the values a
CSV cell holds. Integral values print as plain integers exactly as in JS;
non-integral rationals (which would print as shortest round-trip decimals in
JS) are out of scope of the claims and fall back to the rational repr. -/
def jsNumToString (q : ℚ) : String :=
  if q.den = 1 then toString q.num else toString q

/-- `exportDataCSV`: abort (destructive toast, no file) when there is no
chart data or no series at all; otherwise emit a header of the visible
series names and one line per aligned row, cells blank for missing values.
The timestamp column goes through `formatAbsoluteTime` (date-fns, local
time-zone dependent), abstracted as the parameter `fmtTime`. -/
def exportDataCSV (chartData : List ChartRow) (series : List TimeSeriesData)
    (fmtTime : ℤ → String) : Option String :=
  if chartData.length = 0 || series.length = 0 then none
  else
    let visibleSeries := series.filter seriesShown
    let header :=
      "timestamp," ++
        String.intercalate "," (visibleSeries.map TimeSeriesData.name) ++ "\n"
    let body := String.join (chartData.map (fun point =>
      fmtTime point.timestamp ++ "," ++
        String.intercalate "," (visibleSeries.map (fun s =>
          match objGet point.values s.id with
          | some v => jsNumToString v
          | none => "")) ++ "\n"))
    some (header ++ body)

/-- **C7**: for visible series `A = [(t0,1),(t1,2)]` and `B = [(t0,5)]` with
`t0 < t1`, the CSV export of the aligned data is the header `timestamp,A,B`
followed by `t0,1,5` and `t1,2,` (blank trailing cell), one line per aligned
row in timestamp order, for every timestamp formatter. -/
theorem csvExport_example (t0 t1 : ℤ) (fmtTime : ℤ → String) (h : t0 < t1) :
    exportDataCSV
        (computeChartData
          [⟨"A", "A", "#111111", [⟨t0, 1⟩, ⟨t1, 2⟩], some true⟩,
           ⟨"B", "B", "#222222", [⟨t0, 5⟩], some true⟩])
        [⟨"A", "A", "#111111", [⟨t0, 1⟩, ⟨t1, 2⟩], some true⟩,
         ⟨"B", "B", "#222222", [⟨t0, 5⟩], some true⟩] fmtTime =
      some ("timestamp,A,B\n" ++ fmtTime t0 ++ ",1,5\n" ++ fmtTime t1 ++ ",2,\n") := by
  have h10 : ¬ (t0 = t1) := ne_of_lt h
  have h01 : ¬ (t1 = t0) := Ne.symm (ne_of_lt h)
  have hrows : computeChartData
      [⟨"A", "A", "#111111", [⟨t0, 1⟩, ⟨t1, 2⟩], some true⟩,
       ⟨"B", "B", "#222222", [⟨t0, 5⟩], some true⟩] =
      [⟨t0, [("A", 1), ("B", 5)]⟩, ⟨t1, [("A", 2)]⟩] := by
    simp [computeChartData, buildChartData, processSeries, upsertPoint,
      objSet, seriesShown, List.insertionSort, List.orderedInsert, rowLE,
      h01, h10, h.le]
  rw [hrows, exportDataCSV]
  rw [if_neg (by simp)]
  simp only [List.filter, seriesShown, List.map, objGet, String.intercalate,
    String.join, List.foldl]
  refine congrArg some ?_
  apply String.ext
  simp only [String.data_append]
  simp only [List.append_assoc, List.nil_append]
  rfl

/-- Witness for `csvExport_example` at `t0 = 0`, `t1 = 10`, with the integer
printer as timestamp formatter. -/
theorem csvExport_example_witness :
    (0 : ℤ) < 10 ∧
    exportDataCSV
        (computeChartData
          [⟨"A", "A", "#111111", [⟨0, 1⟩, ⟨10, 2⟩], some true⟩,
           ⟨"B", "B", "#222222", [⟨0, 5⟩], some true⟩])
        [⟨"A", "A", "#111111", [⟨0, 1⟩, ⟨10, 2⟩], some true⟩,
         ⟨"B", "B", "#222222", [⟨0, 5⟩], some true⟩]
        (fun t : ℤ => toString t) =
      some ("timestamp,A,B\n" ++ toString (0 : ℤ) ++ ",1,5\n" ++
        toString (10 : ℤ) ++ ",2,\n") :=
  ⟨by decide, csvExport_example 0 10 (fun t : ℤ => toString t) (by decide)⟩

/-! ## Formatting layer (`formatValue`, `formatBytes`) -/

/-- `Math.abs`. -/
def jsAbs (q : ℚ) : ℚ := if q < 0 then -q else q

/-- ECMAScript `Number.prototype.toFixed(f)` on an exact rational `x` with
`|x| < 10^21`: pick the integer `n` minimising `|n / 10^f - |x||`, ties to
the larger `n`, i.e. `n = ⌊|x|·10^f + 1/2⌋`; render with exactly `f`
fraction digits and the sign in front. -/
def jsToFixed (f : Nat) (x : ℚ) : String :=
  let s := if x < 0 then "-" else ""
  let y := jsAbs x
  let n : ℤ := ⌊y * 10 ^ f + 1 / 2⌋
  if f = 0 then s ++ toString n
  else
    s ++ toString (n / 10 ^ f) ++ "." ++
      (String.mk (List.replicate (f - (toString (n % 10 ^ f)).length) '0') ++
        toString (n % 10 ^ f))

/-- The combined effect of the two trailing-zero regex replacements
(`/\.0+$/` then `/(\.\d*?)0+$/`) on a `toFixed`-shaped string: drop the
trailing zeros of the fraction part, and the decimal point too when the
whole fraction was zeros; strings without a decimal point pass through. -/
def stripTrailingZeros (s : String) : String :=
  if s.toList.contains '.' then
    String.mk
      (((s.toList.reverse.dropWhile (fun c => c = '0')).dropWhile
          (fun c => c = '.')).reverse)
  else s

/-- `formatBytes`: scale by 1024 through the B..PB ladder. For `bytes ≥ 1`,
`Math.floor(Math.log(bytes)/Math.log(1024))` is `Nat.log 1024 ⌊bytes⌋`; for
`0 < bytes < 1` or negative input the JS code indexes `units` with a
negative (or NaN) index and interpolates `undefined`, represented by the
fallback string; an index beyond PB also prints `undefined`, matching
`getD`. -/
def formatBytes (bytes : ℚ) : String :=
  if bytes = 0 then "0 B"
  else if 1 ≤ bytes then
    let i := Nat.log 1024 ⌊bytes⌋.toNat
    jsToFixed 2 (bytes / (1024 : ℚ) ^ i) ++ " " ++
      (["B", "KB", "MB", "GB", "TB", "PB"].getD i "undefined")
  else "NaN undefined"

/-- `formatValue`: byte-units delegate to `formatBytes`; otherwise pick the
decimal precision by magnitude bucket, strip trailing zeros, and append the
unit. The final ternary on `unit` is a JS truthiness test, so the
empty-string unit (falsy, and produced by this codebase, e.g. `unit: ''` in
`generateMockTimeSeriesData`) appends nothing, exactly like `undefined`.
(The `undefined`/`null` input guard returning "N/A" has no counterpart for
a total rational argument.) -/
def formatValue (value : ℚ) (unit : Option String) : String :=
  if unit = some "B" ∨ unit = some "bytes" then formatBytes value
  else
    let p : Nat :=
      if 1000 ≤ jsAbs value then 0
      else if 100 ≤ jsAbs value then 1
      else if 10 ≤ jsAbs value then 2
      else 3
    let formattedValue := stripTrailingZeros (jsToFixed p value)
    match unit with
    | some u => if u = "" then formattedValue else formattedValue ++ " " ++ u
    | none => formattedValue

theorem jsAbs_eq_abs (q : ℚ) : jsAbs q = |q| := by
  rcases lt_or_le q 0 with h | h
  · rw [jsAbs, if_pos h, abs_of_neg h]
  · rw [jsAbs, if_neg (not_lt.mpr h), abs_of_nonneg h]

/-- **C8**: `formatValue` picks the decimal precision inversely to the
magnitude (≥1000 → 0 decimals, ≥100 → 1, ≥10 → 2, else 3), strips trailing
zeros, and appends a supplied (non-byte) unit after a space — where
"supplied" is the source's JS truthiness test, so the empty-string unit
appends nothing, like no unit at all; in particular
`formatValue 1234.5 = "1235"`, `formatValue 42.567 = "42.57"` and
`formatValue 0 "req/s" = "0 req/s"`. -/
theorem formatValue_spec (v : ℚ) (u : String)
    (hu : u ≠ "B" ∧ u ≠ "bytes") (hne : u ≠ "") :
    formatValue (1234.5 : ℚ) none = "1235" ∧
    formatValue (42.567 : ℚ) none = "42.57" ∧
    formatValue 0 (some "req/s") = "0 req/s" ∧
    formatValue v (some u) = formatValue v none ++ " " ++ u ∧
    formatValue v (some "") = formatValue v none ∧
    formatValue v none =
      stripTrailingZeros (jsToFixed
        (if 1000 ≤ |v| then 0 else if 100 ≤ |v| then 1
          else if 10 ≤ |v| then 2 else 3) v) := by
  have hcondn : ¬ ((none : Option String) = some "B" ∨
      (none : Option String) = some "bytes") := by simp
  have habs1 : jsAbs (1234.5 : ℚ) = 2469/2 := by
    rw [jsAbs, if_neg (show ¬ (1234.5 : ℚ) < 0 by norm_num)]
    norm_num
  have habs2 : jsAbs (42.567 : ℚ) = 42567/1000 := by
    rw [jsAbs, if_neg (show ¬ (42.567 : ℚ) < 0 by norm_num)]
    norm_num
  have habs0 : jsAbs (0 : ℚ) = 0 := by
    rw [jsAbs, if_neg (show ¬ (0 : ℚ) < 0 by norm_num)]
  refine ⟨?_, ?_, ?_, ?_, ?_, ?_⟩
  · have hfix : jsToFixed 0 (1234.5 : ℚ) = "1235" := by
      simp only [jsToFixed, habs1]
      rw [if_neg (show ¬ (1234.5 : ℚ) < 0 by norm_num),
        show (⌊(2469/2 : ℚ) * 10 ^ 0 + 1 / 2⌋ : ℤ) = 1235 by norm_num]
      decide
    rw [formatValue, if_neg hcondn,
      show (if (1000 : ℚ) ≤ jsAbs 1234.5 then (0 : ℕ)
        else if (100 : ℚ) ≤ jsAbs 1234.5 then 1
        else if (10 : ℚ) ≤ jsAbs 1234.5 then 2 else 3) = 0 from by
          rw [habs1]; norm_num]
    show stripTrailingZeros (jsToFixed 0 (1234.5 : ℚ)) = "1235"
    rw [hfix]
    decide
  · have hfix : jsToFixed 2 (42.567 : ℚ) = "42.57" := by
      simp only [jsToFixed, habs2]
      rw [if_neg (show ¬ (42.567 : ℚ) < 0 by norm_num),
        show (⌊(42567/1000 : ℚ) * 10 ^ 2 + 1 / 2⌋ : ℤ) = 4257 by norm_num]
      decide
    rw [formatValue, if_neg hcondn,
      show (if (1000 : ℚ) ≤ jsAbs 42.567 then (0 : ℕ)
        else if (100 : ℚ) ≤ jsAbs 42.567 then 1
        else if (10 : ℚ) ≤ jsAbs 42.567 then 2 else 3) = 2 from by
          rw [habs2]; norm_num]
    show stripTrailingZeros (jsToFixed 2 (42.567 : ℚ)) = "42.57"
    rw [hfix]
    decide
  · have hfix : jsToFixed 3 (0 : ℚ) = "0.000" := by
      simp only [jsToFixed, habs0]
      rw [if_neg (show ¬ (0 : ℚ) < 0 by norm_num),
        show (⌊(0 : ℚ) * 10 ^ 3 + 1 / 2⌋ : ℤ) = 0 by norm_num]
      decide
    rw [formatValue, if_neg (show ¬ (some "req/s" = some "B" ∨
        some "req/s" = some "bytes") by simp),
      show (if (1000 : ℚ) ≤ jsAbs 0 then (0 : ℕ)
        else if (100 : ℚ) ≤ jsAbs 0 then 1
        else if (10 : ℚ) ≤ jsAbs 0 then 2 else 3) = 3 from by
          rw [habs0]; norm_num]
    show (if ("req/s" : String) = "" then stripTrailingZeros (jsToFixed 3 (0 : ℚ))
        else stripTrailingZeros (jsToFixed 3 (0 : ℚ)) ++ " " ++ "req/s") = "0 req/s"
    rw [if_neg (show ¬ ("req/s" : String) = "" by decide), hfix]
    decide
  · have hconds : ¬ (some u = some "B" ∨ some u = some "bytes") := by
      simp [hu.1, hu.2]
    simp only [formatValue]
    rw [if_neg hconds, if_neg hcondn, if_neg hne]
  · simp [formatValue]
  · rw [formatValue, if_neg hcondn]
    simp only [jsAbs_eq_abs]

/-- Witness for `formatValue_spec` with the non-byte unit "req/s". -/
theorem formatValue_spec_witness :
    ("req/s" ≠ "B" ∧ "req/s" ≠ "bytes") ∧ ("req/s" : String) ≠ "" ∧
    formatValue (3 : ℚ) (some "req/s") =
      formatValue (3 : ℚ) none ++ " " ++ "req/s" :=
  ⟨⟨by decide, by decide⟩, by decide,
    (formatValue_spec 3 "req/s" ⟨by decide, by decide⟩ (by decide)).2.2.2.1⟩

end Timewave
